import Mathlib

/-!
The tag manager and the content refresher of red-panda-export.

A shallow embedding of `version_handler.js` (identical in its bump logic to
`update.js`) and `content_handler.js`.

* Strings are Lean strings; character-level operations work on `String.data`.
* JavaScript numbers are modelled on the fragment the version bump can reach
  exactly: non-negative integers up to `2^53`, `NaN`, and a constructor
  `other` for every numeric value outside that fragment.
* A child process (`execSync`) is answered by the environment, which may
  depend on everything that happened before; every call is appended to a
  trace together with whether it succeeded.
-/

namespace RedPanda

/-! ## Strings and numbers -/

/-- WhiteSpace and LineTerminator code points of ECMAScript, the ones removed by
`String.prototype.trim` and ignored around a numeric string. -/
def isJsWhiteSpace (c : Char) : Bool :=
  let n := c.toNat
  n = 0x09 || n = 0x0A || n = 0x0B || n = 0x0C || n = 0x0D || n = 0x20 || n = 0xA0 ||
  n = 0x1680 || (0x2000 ≤ n && n ≤ 0x200A) || n = 0x2028 || n = 0x2029 || n = 0x202F ||
  n = 0x205F || n = 0x3000 || n = 0xFEFF

/-- The characters of `s.trim()`. -/
def jsTrim (s : List Char) : List Char :=
  ((s.dropWhile isJsWhiteSpace).reverse.dropWhile isJsWhiteSpace).reverse

/-- The parts of `s.split(sep)` for a one-character separator. -/
def jsSplit (sep : Char) : List Char → List (List Char)
  | [] => [[]]
  | c :: cs =>
    if c = sep then [] :: jsSplit sep cs
    else
      match jsSplit sep cs with
      | [] => [[c]]
      | p :: ps => (c :: p) :: ps

/-- A JavaScript number, restricted to what the version bump computes exactly. -/
inductive JsNum where
  /-- An integer `n` with `0 ≤ n ≤ 2^53`, exactly representable as a double. -/
  | nat (n : Nat)
  /-- The value `NaN`. -/
  | nan
  /-- Any other numeric value (negative, fractional, infinite, or above `2^53`). -/
  | other
  deriving DecidableEq, Repr

/-- Value of a run of ASCII decimal digits. -/
def decimalValue (ds : List Char) : Nat :=
  ds.foldl (fun acc c => 10 * acc + (c.toNat - '0'.toNat)) 0

/-- Drops one leading `+` or `-`. -/
def dropSign : List Char → List Char
  | '+' :: s => s
  | '-' :: s => s
  | s => s

/-- ExponentPart of a decimal literal: `e` or `E`, an optional sign, digits. -/
def isExponentPart : List Char → Bool
  | c :: s => (c = 'e' || c = 'E') && dropSign s ≠ [] && (dropSign s).all Char.isDigit
  | [] => false

/-- StrUnsignedDecimalLiteral: `Infinity`, `d+.d*(e..)?`, `.d+(e..)?`, `d+(e..)?`. -/
def isUnsignedDecimal (s : List Char) : Bool :=
  if s = "Infinity".data then true
  else
    let ip := s.takeWhile Char.isDigit
    match s.dropWhile Char.isDigit with
    | '.' :: r =>
      let fp := r.takeWhile Char.isDigit
      let e := r.dropWhile Char.isDigit
      (ip ≠ [] || fp ≠ []) && (e = [] || isExponentPart e)
    | e => ip ≠ [] && (e = [] || isExponentPart e)

/-- NonDecimalIntegerLiteral: `0b`, `0o`, `0x` (either case) and at least one digit. -/
def isNonDecimalInteger : List Char → Bool
  | '0' :: x :: ds =>
    ds ≠ [] &&
    (((x = 'b' || x = 'B') && ds.all (fun c => c = '0' || c = '1')) ||
     ((x = 'o' || x = 'O') && ds.all (fun c => '0' ≤ c && c ≤ '7')) ||
     ((x = 'x' || x = 'X') &&
        ds.all (fun c => c.isDigit || ('a' ≤ c && c ≤ 'f') || ('A' ≤ c && c ≤ 'F'))))
  | _ => false

/-- The value `Number(s)` for a string `s` (StringToNumber): surrounding white space is
ignored, the empty string is `0`, a string that is no numeric literal is `NaN`. -/
def toNumber (s : List Char) : JsNum :=
  let t := jsTrim s
  if t = [] then .nat 0
  else if t.all Char.isDigit then
    if decimalValue t ≤ 2 ^ 53 then .nat (decimalValue t) else .other
  else if isNonDecimalInteger t || isUnsignedDecimal (dropSign t) then .other
  else .nan

/-- The postfix `x++` on a binding that may be `undefined` (`none`): the new value
of `x`.  `2^53 + 1` rounds back to `2^53`. -/
def increment : Option JsNum → JsNum
  | none => .nan
  | some (.nat n) => if n < 2 ^ 53 then .nat (n + 1) else .nat n
  | some .nan => .nan
  | some .other => .other

/-- Text of a template-literal substitution; `none` for a value outside the
modelled fragment. -/
def substitute : Option JsNum → Option String
  | none => some "undefined"
  | some (.nat n) => some (Nat.repr n)
  | some .nan => some "NaN"
  | some .other => none

/-- The `newVersion` computed by `updateVersionAndTag` (version_handler.js lines
152-173, update.js lines 71-92) from the manifest version and the bump type.
`none` only when a component falls outside the modelled numbers. -/
def newVersion (version : String) (type : String) : Option String :=
  let versionParts := (jsSplit '.' version.data).map toNumber
  let major := versionParts[0]?
  let minor := versionParts[1]?
  let patch := versionParts[2]?
  let bumped : Option JsNum × Option JsNum × Option JsNum :=
    if type = "major" then (some (increment major), some (.nat 0), some (.nat 0))
    else if type = "minor" then (major, some (increment minor), some (.nat 0))
    else (major, minor, some (increment patch))
  match substitute bumped.1, substitute bumped.2.1, substitute bumped.2.2 with
  | some a, some b, some c => some (a ++ "." ++ b ++ "." ++ c)
  | _, _, _ => none


/-- A non-empty run of ASCII decimal digits: a decimal non-negative integer as it
is written in a version string. -/
def IsDecimal (a : List Char) : Prop := a ≠ [] ∧ ∀ c ∈ a, c.isDigit = true

/-! ## The environment: child processes and the manifest -/

/-- What `execSync` does with a command: it returns the captured standard output
(exit status zero) or throws (non-zero exit status, or the command cannot run). -/
inductive ExecResult where
  | ok (stdout : String)
  | error (message : String)
  deriving DecidableEq, Repr

/-- Whether the command exited with status zero. -/
def ExecResult.succeeded : ExecResult → Bool
  | .ok _ => true
  | .error _ => false

/-- An observable action of the tag manager. -/
inductive Event where
  /-- A child process was run with this command line; `succeeded` is its result. -/
  | exec (cmd : String) (succeeded : Bool)
  /-- The manifest `package.json` was rewritten with this `version` field. -/
  | writeManifest (version : String)
  deriving DecidableEq, Repr

/-- The world the tag manager runs in. -/
structure World where
  /-- Answer of the system to a command line, given everything done so far. -/
  run : List Event → String → ExecResult
  /-- The `version` field of `package.json`; `none` when reading or parsing the
  manifest throws. -/
  manifest : Option String
  /-- Whether `fs.writeFileSync` on the manifest succeeds. -/
  manifestWritable : Bool
  /-- The actions performed so far, oldest first. -/
  trace : List Event

/-- Runs a command line as a blocking child process and records it. -/
def execSync (cmd : String) (w : World) : ExecResult × World :=
  let r := w.run w.trace cmd
  (r, { w with trace := w.trace ++ [Event.exec cmd r.succeeded] })

/-- How an entry-point operation ends: it returns to its caller, or the process
is terminated by `process.exit(code)`. -/
inductive Outcome where
  | returned
  | exit (code : Nat)
  deriving DecidableEq, Repr

/-- Result of a block of statements inside a `try`: it runs to its end, executes
a `return`, or throws. -/
inductive Flow where
  | proceed
  | earlyReturn
  | throw (message : String)
  deriving DecidableEq, Repr

/-! ## `createVersionTag` (version_handler.js) -/

/-- JavaScript truthiness of an optional string argument. -/
def truthy : Option String → Bool
  | some s => s ≠ ""
  | none => false

/-- Lines 12-31: choose the version (the custom one when truthy, else the manifest
field) and check that we are in a git repository.  `none` is a thrown error. -/
def preflight (customVersion : Option String) (w : World) : Option String × World :=
  let version : Option String :=
    match customVersion with
    | some v => if v ≠ "" then some v else w.manifest
    | none => w.manifest
  match version with
  | none => (none, w)
  | some version =>
    let r := execSync "git status" w
    match r.1 with
    | .ok _ => (some version, r.2)
    | .error _ => (none, r.2)

/-- Lines 33-40: the local existence probe. -/
def tagExistsLocally (version : String) (w : World) : Bool × World :=
  let r := execSync ("git rev-parse " ++ version) w
  match r.1 with
  | .ok _ => (true, r.2)
  | .error _ => (false, r.2)

/-- Lines 42-49: the remote existence probe. -/
def tagExistsRemotely (version : String) (w : World) : Bool × World :=
  let r := execSync ("git ls-remote --tags origin " ++ version) w
  match r.1 with
  | .ok remoteOutput => (decide ((jsTrim remoteOutput.data).length > 0), r.2)
  | .error _ => (false, r.2)

/-- Lines 33-49: both probes, local first. -/
def probeTags (version : String) (w : World) : Bool × Bool × World :=
  let l := tagExistsLocally version w
  let r := tagExistsRemotely version l.2
  (l.1, r.1, r.2)

/-- Command line deleting the local tag. -/
def deleteLocalCmd (version : String) : String := "git tag -d " ++ version

/-- Command line deleting the tag on the remote. -/
def deleteRemoteCmd (version : String) : String := "git push --delete origin " ++ version

/-- Command line of the commit. -/
def commitCmd (version : String) : String :=
  "git commit -m \"Release " ++ version ++ "\" --no-verify"

/-- Command line creating the annotated tag. -/
def tagCmd (version : String) : String :=
  "git tag -a " ++ version ++ " -m \"Release version " ++ version ++ "\""

/-- Command line pushing the tag. -/
def pushCmd (version : String) : String := "git push origin " ++ version

/-- A command whose failure is rethrown. -/
def required (cmd : String) (w : World) : Flow × World :=
  let r := execSync cmd w
  match r.1 with
  | .ok _ => (.proceed, r.2)
  | .error e => (.throw e, r.2)

/-- Sequencing inside one `try` block: the statements `next` run only when the
statements before them ran to their end. -/
def andThen (first : Flow × World) (next : World → Flow × World) : Flow × World :=
  match first.1 with
  | .proceed => next first.2
  | .earlyReturn => first
  | .throw _ => first

/-- Lines 51-108: the decision on the two existence flags and `force`. -/
def reconcile (version : String) (force : Bool) (tagExistsLocally tagExistsRemotely : Bool)
    (w : World) : Flow × World :=
  if tagExistsLocally && tagExistsRemotely then
    if force then
      andThen (required (deleteLocalCmd version) w) (required (deleteRemoteCmd version))
    else (.earlyReturn, w)
  else if tagExistsLocally && !tagExistsRemotely then
    required (deleteLocalCmd version) w
  else if !tagExistsLocally && tagExistsRemotely then
    if force then required (deleteRemoteCmd version) w
    else (.earlyReturn, w)
  else (.proceed, w)

/-- Lines 114-122: the quiet staged-diff check, and the commit when it exits
non-zero. -/
def commitIfStaged (version : String) (w : World) : Flow × World :=
  let r := execSync "git diff --cached --quiet" w
  match r.1 with
  | .ok _ => (.proceed, r.2)
  | .error _ => required (commitCmd version) r.2

/-- Lines 110-129: stage, commit when the staged diff is not empty, tag, push. -/
def createPhase (version : String) (w : World) : Flow × World :=
  andThen (required "git add ." w) fun w1 =>
  andThen (commitIfStaged version w1) fun w2 =>
  andThen (required (tagCmd version) w2) fun w3 =>
  required (pushCmd version) w3

/-- The outer `try`/`catch` of an operation: a thrown error ends the process with
status 1, anything else returns. -/
def catchExit : Flow × World → Outcome × World
  | (.throw _, w) => (.exit 1, w)
  | (.proceed, w) => (.returned, w)
  | (.earlyReturn, w) => (.returned, w)

/-- The function `createVersionTag(customVersion, force)`, lines 10-141. -/
def createVersionTag (customVersion : Option String) (force : Bool) (w : World) :
    Outcome × World :=
  match preflight customVersion w with
  | (none, w1) => (.exit 1, w1)
  | (some version, w1) =>
    let p := probeTags version w1
    catchExit (andThen (reconcile version force p.1 p.2.1 p.2.2) (createPhase version))

/-! ## `updateVersionAndTag` and the command line -/

/-- The function `updateVersionAndTag(type)`, lines 147-189.  `none` only when the
bumped version is outside the modelled numbers (see `newVersion`). -/
def updateVersionAndTag (type : String) (w : World) : Option (Outcome × World) :=
  match w.manifest with
  | none => some (.exit 1, w)
  | some version =>
    match newVersion version type with
    | none => none
    | some v =>
      if w.manifestWritable then
        some (createVersionTag none false
          { w with manifest := some v, trace := w.trace ++ [Event.writeManifest v] })
      else some (.exit 1, w)

/-! ## The version pattern of the `tag` subcommand -/

/-- A regular expression matching exactly one character out of `cs`. -/
def anyOf (cs : List Char) : RegularExpression Char :=
  cs.foldr (fun c r => RegularExpression.char c + r) 0

/-- One or more repetitions, the quantifier `+`. -/
def oneOrMore (r : RegularExpression Char) : RegularExpression Char := r * r.star

/-- Zero or one occurrence, the quantifier `?`. -/
def optional (r : RegularExpression Char) : RegularExpression Char := r + 1

/-- The characters of the class `\d`. -/
def digitChars : List Char := "0123456789".data

/-- The characters of the class `[\w\.-]`: ASCII letters, digits, `_`, `.`, `-`. -/
def suffixChars : List Char :=
  "abcdefghijklmnopqrstuvwxyzABCDEFGHIJKLMNOPQRSTUVWXYZ0123456789_.-".data

/-- The body of `/^\d+\.\d+\.\d+(-[\w\.-]+)?$/` (line 210); the anchors make
`test` a match of the whole string. -/
def versionRegex : RegularExpression Char :=
  oneOrMore (anyOf digitChars) * RegularExpression.char '.' *
  oneOrMore (anyOf digitChars) * RegularExpression.char '.' *
  oneOrMore (anyOf digitChars) *
  optional (RegularExpression.char '-' * oneOrMore (anyOf suffixChars))

/-- The result of `versionRegex.test(customVersion)`. -/
def versionRegexTest (customVersion : String) : Bool :=
  versionRegex.rmatch customVersion.data

/-- The form the specification asks of an explicit version: three runs of ASCII
digits separated by dots, optionally followed by `-` and one or more characters
out of letters, digits, `_`, `.`, `-`. -/
def SemverForm (s : List Char) : Prop :=
  ∃ a b c rest : List Char,
    s = a ++ '.' :: (b ++ '.' :: (c ++ rest)) ∧
    (a ≠ [] ∧ ∀ x ∈ a, x ∈ digitChars) ∧
    (b ≠ [] ∧ ∀ x ∈ b, x ∈ digitChars) ∧
    (c ≠ [] ∧ ∀ x ∈ c, x ∈ digitChars) ∧
    (rest = [] ∨ ∃ t : List Char, rest = '-' :: t ∧ t ≠ [] ∧ ∀ x ∈ t, x ∈ suffixChars)

/-- The command-line interface of version_handler.js (lines 192-255) applied to
`process.argv.slice(2)`. -/
def cli (args : List String) (w : World) : Option (Outcome × World) :=
  let command := args[0]?
  if command = some "tag" then
    let customVersion := args[1]?
    let forceFlag := args.contains "force-update" || args.contains "-f"
    if truthy customVersion &&
        (customVersion = some "force-update" || customVersion = some "-f") then
      some (createVersionTag none true w)
    else
      match customVersion with
      | some v =>
        if v ≠ "" && !versionRegexTest v then some (.exit 1, w)
        else some (createVersionTag customVersion forceFlag w)
      | none => some (createVersionTag customVersion forceFlag w)
  else if command = some "update" then
    let versionType :=
      match args[1]? with
      | some t => if t ≠ "" then t else "patch"
      | none => "patch"
    if ["patch", "minor", "major"].contains versionType then updateVersionAndTag versionType w
    else some (.exit 1, w)
  else
    -- the usage text interpolates `require('./package.json').version`
    match w.manifest with
    | some _ => some (.returned, w)
    | none => some (.exit 1, w)

/-! ## The content refresher (content_handler.js) -/

/-- What the walk finds at a path.  Entry names play no part in the counts and
are left out. -/
inductive FsNode where
  /-- An entry on which `statSync` succeeds and `isDirectory()` is false. -/
  | file
  /-- A directory that `readdirSync` lists, with its entries in listing order. -/
  | dir (entries : List FsNode)
  /-- A directory on which `readdirSync` throws. -/
  | unreadableDir
  /-- An entry on which `statSync` throws. -/
  | unstatable

/-- The two counters of `getContentStats`. -/
structure Stats where
  files : Nat
  directories : Nat
  deriving DecidableEq, Repr

mutual
/-- The call `countItems(currentPath)` (lines 64-82), `node` being what is at `currentPath`:
the counters after the call.  Any error inside the `try` ends this call only. -/
def countItems : FsNode → Stats → Stats
  | .dir items, s => countLoop items s
  | .file, s => s
  | .unreadableDir, s => s
  | .unstatable, s => s
/-- The `for` loop over the listing (lines 68-78). -/
def countLoop : List FsNode → Stats → Stats
  | [], s => s
  | .unstatable :: _, s => s
  | .file :: rest, s => countLoop rest { s with files := s.files + 1 }
  | .dir items :: rest, s =>
    countLoop rest (countItems (.dir items) { s with directories := s.directories + 1 })
  | .unreadableDir :: rest, s =>
    countLoop rest (countItems .unreadableDir { s with directories := s.directories + 1 })
end

/-- The function `getContentStats(dirPath)` (lines 60-86), `root` being what is at `dirPath`. -/
def getContentStats (root : FsNode) : Stats :=
  countItems root { files := 0, directories := 0 }

mutual
/-- Every entry strictly below a node. -/
def FsNode.descendants : FsNode → List FsNode
  | .dir entries => descendantsAll entries
  | .file => []
  | .unreadableDir => []
  | .unstatable => []
/-- Every entry of a listing together with everything below it. -/
def descendantsAll : List FsNode → List FsNode
  | [] => []
  | e :: rest => e :: (e.descendants ++ descendantsAll rest)
end

/-- Whether an entry is a directory. -/
def FsNode.isDirectory : FsNode → Bool
  | .dir _ => true
  | .unreadableDir => true
  | _ => false

/-- An entry that can be stat-ed and, when a directory, listed. -/
def FsNode.accessible : FsNode → Bool
  | .file => true
  | .dir _ => true
  | _ => false

/-- Number of non-directory entries anywhere below `root`. -/
def fileCount (root : FsNode) : Nat := (root.descendants.filter (fun e => !e.isDirectory)).length

/-- Number of directory entries anywhere below `root`. -/
def directoryCount (root : FsNode) : Nat := (root.descendants.filter (fun e => e.isDirectory)).length

/-- An entry on which `statSync` succeeds. -/
def FsNode.statable : FsNode → Bool
  | .unstatable => false
  | _ => true

/-- Number of accessible files below `root`.  What lies inside an unreadable
directory is not part of `root.descendants`, so every entry counted here is
outside any inaccessible subtree. -/
def accessibleFileCount (root : FsNode) : Nat :=
  (root.descendants.filter (fun e => e.accessible && !e.isDirectory)).length

/-- Number of accessible directories below `root`, outside any inaccessible
subtree. -/
def accessibleDirectoryCount (root : FsNode) : Nat :=
  (root.descendants.filter (fun e => e.accessible && e.isDirectory)).length

/-- An observable action of the content refresher. -/
inductive ContentEvent where
  /-- The call `fs.rmSync(contentDir, ...)` was made. -/
  | rmSync
  /-- The export command line was run. -/
  | exec (cmd : String) (succeeded : Bool)
  /-- The export summary was printed. -/
  | summary (directories files : Nat)
  /-- The warning that the content directory was not created was printed. -/
  | notCreated
  deriving DecidableEq, Repr

/-- The world of the content refresher. -/
structure ContentWorld where
  /-- What is at the content path; `none` when nothing exists there. -/
  content : Option FsNode
  /-- Whether the recursive removal succeeds. -/
  rmSyncOk : Bool
  /-- The export command: its result and what is at the content path afterwards,
  given what was there before. -/
  exportRun : Option FsNode → ExecResult × Option FsNode
  /-- The actions performed so far, oldest first. -/
  trace : List ContentEvent

/-- The export command line (line 26). -/
def exportCommand : String := "csdx cm:export -k bltc991c0dda4197336 -d content"

/-- The function `updateContentDirectory()` (lines 8-53).  A removal that fails is
taken to leave the directory as it was. -/
def updateContentDirectory (w : ContentWorld) : Outcome × ContentWorld :=
  let afterDelete : Option ContentWorld :=
    match w.content with
    | some _ =>
      if w.rmSyncOk then
        some { w with content := none, trace := w.trace ++ [ContentEvent.rmSync] }
      else none
    | none => some w
  match afterDelete with
  | none => (.exit 1, { w with trace := w.trace ++ [ContentEvent.rmSync] })
  | some w1 =>
    match w1.exportRun w1.content with
    | (.error _, c) =>
      (.exit 1,
        { w1 with
          content := c
          trace := w1.trace ++ [ContentEvent.exec exportCommand false] })
    | (.ok _, c) =>
      let w2 : ContentWorld :=
        { w1 with content := c, trace := w1.trace ++ [ContentEvent.exec exportCommand true] }
      match c with
      | some root =>
        let stats := getContentStats root
        (.returned,
          { w2 with trace := w2.trace ++ [ContentEvent.summary stats.directories stats.files] })
      | none => (.returned, { w2 with trace := w2.trace ++ [ContentEvent.notCreated] })

/-! ## Reference descriptions used by the statements -/

/-- The deletions of the decision table, in the order they are to be issued, for
the rows that go on to create the tag. -/
def deletions (existsLocally existsRemotely force : Bool) (version : String) : List String :=
  match existsLocally, existsRemotely, force with
  | true, true, true => [deleteLocalCmd version, deleteRemoteCmd version]
  | true, false, _ => [deleteLocalCmd version]
  | false, true, true => [deleteRemoteCmd version]
  | false, false, _ => []
  | _, true, false => []

/-- Issues the commands one after the other, each of them succeeding; `none` as
soon as one fails. -/
def issueAll : List String → World → Option World
  | [], w => some w
  | cmd :: rest, w =>
    let r := execSync cmd w
    match r.1 with
    | .ok _ => issueAll rest r.2
    | .error _ => none

/-- The commands whose failure the specification calls a mutation failure. -/
def mutatingSteps (version : String) : List String :=
  [deleteLocalCmd version, deleteRemoteCmd version, commitCmd version, tagCmd version,
    pushCmd version]

/-- The repository check fails whenever it is run. -/
def NotARepository (w : World) : Prop :=
  ∀ history : List Event, (w.run history "git status").succeeded = false

/-- The world `w1` continues `w` by running commands out of `allowed` only. -/
def Extends (allowed : List String) (w w1 : World) : Prop :=
  ∃ added : List Event, w1.trace = w.trace ++ added ∧
    ∀ e ∈ added, ∃ c ok, e = Event.exec c ok ∧ c ∈ allowed

/-- The command lines of the create phase that follow the staging. -/
def afterStaging (version : String) : List String :=
  ["git diff --cached --quiet", commitCmd version, tagCmd version, pushCmd version]

/-- A mutating step that failed. -/
def FailedMutation (e : Event) : Prop :=
  ∃ cmd version, e = Event.exec cmd false ∧ cmd ∈ mutatingSteps version

/-- No event of the list is a failed mutating step. -/
def Clean (events : List Event) : Prop := ∀ e ∈ events, ¬ FailedMutation e

/-- The events a block of statements added to the trace of `w`: first events
without any failed mutating step, then nothing more, or one failed command
followed at once by a throw. -/
def StopsAtFailure (w : World) (x : Flow × World) : Prop :=
  ∃ clean tail : List Event, x.2.trace = w.trace ++ clean ++ tail ∧ Clean clean ∧
    (tail = [] ∨ (∃ c, tail = [Event.exec c false]) ∧ ∃ e, x.1 = Flow.throw e)

/-! ## Concrete worlds -/

/-- Every command succeeds; the tag `1.2.3` is resolvable locally and listed on
the remote. -/
def taggedWorld : World where
  run := fun _ cmd =>
    .ok (if cmd = "git ls-remote --tags origin 1.2.3" then "abc\trefs/tags/1.2.3\n" else "")
  manifest := some "1.2.3"
  manifestWritable := true
  trace := []

/-- As `taggedWorld`, but deleting the local tag fails. -/
def deleteFailsWorld : World where
  run := fun _ cmd =>
    if cmd = "git tag -d 1.2.3" then .error "error: tag not found"
    else .ok (if cmd = "git ls-remote --tags origin 1.2.3" then "abc\trefs/tags/1.2.3\n" else "")
  manifest := some "1.2.3"
  manifestWritable := true
  trace := []

/-- A repository without any tag and with staged changes: the probes find
nothing, the quiet diff exits non-zero, every other command succeeds. -/
def freshWorld (version : String) : World where
  run := fun _ cmd =>
    if cmd = "git rev-parse " ++ version then .error "fatal: ambiguous argument"
    else if cmd = "git diff --cached --quiet" then .error "Command failed"
    else .ok ""
  manifest := some version
  manifestWritable := true
  trace := []

/-- A repository without any tag whose manifest holds the two-part version `1.2`. -/
def malformedWorld : World :=
  { freshWorld "1.2.NaN" with manifest := some "1.2" }

/-- A repository whose remote cannot be reached and that has no tag `3.3.0`: both
probes fail, every other command succeeds. -/
def offlineWorld : World where
  run := fun _ cmd =>
    if cmd = "git rev-parse 3.3.0" then .error "fatal: ambiguous argument"
    else if cmd = "git ls-remote --tags origin 3.3.0" then .error "fatal: unable to access"
    else .ok ""
  manifest := some "3.3.0"
  manifestWritable := true
  trace := []

/-- Not a git repository: every command fails. -/
def noRepoWorld : World where
  run := fun _ _ => .error "fatal: not a git repository"
  manifest := some "3.3.0"
  manifestWritable := true
  trace := []

/-- An export of four files across two subdirectories. -/
def sampleExport : FsNode :=
  .dir [.file, .dir [.file, .file, .dir []], .file]

/-- A content directory listing a file, an entry that cannot be stat-ed (a
dangling symbolic link, say), another file and a subdirectory holding one file. -/
def danglingLinkTree : FsNode :=
  .dir [.file, .unstatable, .file, .dir [.file]]

/-- A content directory listing a file, a directory that cannot be listed,
another file and a subdirectory holding one file. -/
def lockedDirTree : FsNode :=
  .dir [.file, .unreadableDir, .file, .dir [.file]]

/-- No content directory yet; the export creates `sampleExport`. -/
def emptyContentWorld : ContentWorld where
  content := none
  rmSyncOk := true
  exportRun := fun _ => (.ok "", some sampleExport)
  trace := []

/-! ## Basic facts about the environment -/

/-- The world right after `cmd` has been run in `w`. -/
theorem execSync_eq (cmd : String) (w : World) :
    execSync cmd w =
      (w.run w.trace cmd,
        { w with trace := w.trace ++ [Event.exec cmd (w.run w.trace cmd).succeeded] }) := rfl

theorem required_ok {cmd : String} {w : World} {out : String}
    (h : w.run w.trace cmd = .ok out) :
    required cmd w = (.proceed, { w with trace := w.trace ++ [Event.exec cmd true] }) := by
  simp [required, execSync, h, ExecResult.succeeded]

theorem required_error {cmd : String} {w : World} {e : String}
    (h : w.run w.trace cmd = .error e) :
    required cmd w = (.throw e, { w with trace := w.trace ++ [Event.exec cmd false] }) := by
  simp [required, execSync, h, ExecResult.succeeded]

theorem preflight_some {customVersion : Option String} {w w1 : World} {version : String}
    (h : preflight customVersion w = (some version, w1)) :
    w1 = { w with trace := w.trace ++ [Event.exec "git status" true] } := by
  unfold preflight at h
  simp only [execSync] at h
  split at h
  · simp at h
  · cases hr : w.run w.trace "git status" <;> simp [hr, ExecResult.succeeded] at h
    exact h.2.symm

theorem probeTags_eq (version : String) (w : World) :
    probeTags version w =
      ((w.run w.trace ("git rev-parse " ++ version)).succeeded,
       (match w.run (w.trace ++ [Event.exec ("git rev-parse " ++ version)
            (w.run w.trace ("git rev-parse " ++ version)).succeeded])
            ("git ls-remote --tags origin " ++ version) with
        | .ok remoteOutput => decide ((jsTrim remoteOutput.data).length > 0)
        | .error _ => false),
       { w with trace := w.trace ++
          [Event.exec ("git rev-parse " ++ version)
            (w.run w.trace ("git rev-parse " ++ version)).succeeded,
           Event.exec ("git ls-remote --tags origin " ++ version)
            (w.run (w.trace ++ [Event.exec ("git rev-parse " ++ version)
              (w.run w.trace ("git rev-parse " ++ version)).succeeded])
              ("git ls-remote --tags origin " ++ version)).succeeded] }) := by
  simp only [probeTags, tagExistsLocally, tagExistsRemotely, execSync]
  cases h1 : w.run w.trace ("git rev-parse " ++ version) <;>
  simp only [ExecResult.succeeded] <;>
  split <;> simp_all [ExecResult.succeeded]

/-! ## The version bump -/

theorem isDigit_bounds (c : Char) (h : c.isDigit = true) : 48 ≤ c.toNat ∧ c.toNat ≤ 57 := by
  simp only [Char.isDigit, Bool.and_eq_true, decide_eq_true_eq, ge_iff_le] at h
  obtain ⟨h1, h2⟩ := h
  have h1' : (48 : UInt32).toNat ≤ c.val.toNat := h1
  have h2' : c.val.toNat ≤ (57 : UInt32).toNat := h2
  exact ⟨h1', h2'⟩

theorem isDigit_not_ws (c : Char) (h : c.isDigit = true) : isJsWhiteSpace c = false := by
  have := isDigit_bounds c h
  simp [isJsWhiteSpace]
  omega

theorem isDigit_ne_dot (c : Char) (h : c.isDigit = true) : c ≠ '.' := by
  rintro rfl
  revert h; decide

theorem dropWhile_head_false {p : Char → Bool} :
    ∀ l : List Char, (∀ c ∈ l, p c = false) → l.dropWhile p = l
  | [], _ => rfl
  | c :: cs, h => by simp [List.dropWhile, h c (List.mem_cons_self _ _)]

theorem jsTrim_digits (a : List Char) (h : ∀ c ∈ a, c.isDigit = true) : jsTrim a = a := by
  have hw : ∀ c ∈ a, isJsWhiteSpace c = false := fun c hc => isDigit_not_ws c (h c hc)
  unfold jsTrim
  rw [dropWhile_head_false a hw, dropWhile_head_false a.reverse (by simpa using hw)]
  simp

theorem jsSplit_no_sep (sep : Char) :
    ∀ a : List Char, (∀ c ∈ a, c ≠ sep) → jsSplit sep a = [a]
  | [], _ => rfl
  | c :: cs, h => by
    have hc : c ≠ sep := h c (List.mem_cons_self _ _)
    have ih := jsSplit_no_sep sep cs (fun x hx => h x (List.mem_cons_of_mem _ hx))
    simp [jsSplit, hc, ih]

theorem jsSplit_append_sep (sep : Char) (r : List Char) :
    ∀ a : List Char, (∀ c ∈ a, c ≠ sep) → jsSplit sep (a ++ sep :: r) = a :: jsSplit sep r
  | [], _ => by simp [jsSplit]
  | c :: cs, h => by
    have hc : c ≠ sep := h c (List.mem_cons_self _ _)
    have ih := jsSplit_append_sep sep r cs (fun x hx => h x (List.mem_cons_of_mem _ hx))
    simp [jsSplit, hc, ih]

theorem toNumber_decimal (a : List Char) (h : IsDecimal a) (hb : decimalValue a < 2 ^ 53) :
    toNumber a = .nat (decimalValue a) := by
  obtain ⟨hne, hd⟩ := h
  have hall : a.all Char.isDigit = true := by simpa using hd
  simp only [toNumber, jsTrim_digits a hd, hne, hall, if_true, if_false]
  rw [if_pos (by omega)]

theorem increment_safe (n : Nat) (h : n < 2 ^ 53) :
    increment (some (.nat n)) = .nat (n + 1) := by
  simp only [increment, if_pos h]

theorem versionParts_three (a b c : List Char) (ha : IsDecimal a) (hb : IsDecimal b)
    (hc : IsDecimal c) :
    jsSplit '.' (a ++ '.' :: (b ++ '.' :: c)) = [a, b, c] := by
  rw [jsSplit_append_sep _ _ a (fun x hx => isDigit_ne_dot x (ha.2 x hx)),
    jsSplit_append_sep _ _ b (fun x hx => isDigit_ne_dot x (hb.2 x hx)),
    jsSplit_no_sep _ c (fun x hx => isDigit_ne_dot x (hc.2 x hx))]

/-- The bump of a version written as three decimal numerals, leading zeros
included, with values below `2^53`. -/
theorem newVersion_numerals (a b c : List Char)
    (ha : IsDecimal a) (hb : IsDecimal b) (hc : IsDecimal c)
    (hM : decimalValue a < 2 ^ 53) (hm : decimalValue b < 2 ^ 53) (hp : decimalValue c < 2 ^ 53) :
    newVersion (String.mk (a ++ '.' :: (b ++ '.' :: c))) "patch"
      = some (Nat.repr (decimalValue a) ++ "." ++ Nat.repr (decimalValue b) ++ "."
          ++ Nat.repr (decimalValue c + 1)) ∧
    newVersion (String.mk (a ++ '.' :: (b ++ '.' :: c))) "minor"
      = some (Nat.repr (decimalValue a) ++ "." ++ Nat.repr (decimalValue b + 1) ++ "."
          ++ Nat.repr 0) ∧
    newVersion (String.mk (a ++ '.' :: (b ++ '.' :: c))) "major"
      = some (Nat.repr (decimalValue a + 1) ++ "." ++ Nat.repr 0 ++ "." ++ Nat.repr 0) := by
  have hA := toNumber_decimal a ha hM
  have hB := toNumber_decimal b hb hm
  have hC := toNumber_decimal c hc hp
  have hv := versionParts_three a b c ha hb hc
  have iA := increment_safe _ hM
  have iB := increment_safe _ hm
  have iC := increment_safe _ hp
  refine ⟨?_, ?_, ?_⟩ <;>
  simp [newVersion, hv, hA, hB, hC, iA, iB, iC, substitute]

theorem digitChar_decimal (k : Nat) (hk : k < 10) :
    (Nat.digitChar k).isDigit = true ∧ (Nat.digitChar k).toNat - '0'.toNat = k := by
  interval_cases k <;> decide

theorem decimalValue_append (xs : List Char) (c : Char) :
    decimalValue (xs ++ [c]) = 10 * decimalValue xs + (c.toNat - '0'.toNat) := by
  simp [decimalValue, List.foldl_append]

/-- The digits produced with enough fuel are a decimal numeral of value `n`, put
in front of the accumulator. -/
theorem toDigitsCore_decimal : ∀ (fuel n : Nat) (ds : List Char), n < fuel →
    ∃ pre : List Char, Nat.toDigitsCore 10 fuel n ds = pre ++ ds ∧ IsDecimal pre ∧
      decimalValue pre = n
  | 0, n, ds, h => by omega
  | fuel + 1, n, ds, h => by
    obtain ⟨hd, hv⟩ := digitChar_decimal (n % 10) (Nat.mod_lt _ (by omega))
    by_cases h0 : n / 10 = 0
    · refine ⟨[Nat.digitChar (n % 10)], by simp [Nat.toDigitsCore, h0], ⟨by simp, ?_⟩, ?_⟩
      · intro c hc
        rw [List.mem_singleton] at hc
        rw [hc]; exact hd
      · have : decimalValue [Nat.digitChar (n % 10)] =
            (Nat.digitChar (n % 10)).toNat - '0'.toNat := by
          simp [decimalValue]
        rw [this, hv]
        omega
    · obtain ⟨pre, hp, hdec, hval⟩ :=
        toDigitsCore_decimal fuel (n / 10) (Nat.digitChar (n % 10) :: ds) (by omega)
      refine ⟨pre ++ [Nat.digitChar (n % 10)], by simp [Nat.toDigitsCore, h0, hp],
        ⟨by simp, ?_⟩, ?_⟩
      · intro c hc
        rcases List.mem_append.mp hc with h1 | h1
        · exact hdec.2 c h1
        · rw [List.mem_singleton] at h1
          rw [h1]; exact hd
      · rw [decimalValue_append, hval, hv]
        omega

/-- The canonical decimal text of `n` is a decimal numeral of value `n`. -/
theorem repr_decimal (n : Nat) :
    IsDecimal (Nat.repr n).data ∧ decimalValue (Nat.repr n).data = n := by
  obtain ⟨pre, hp, hdec, hval⟩ := toDigitsCore_decimal (n + 1) n [] (by omega)
  have : (Nat.repr n).data = pre := by
    simp [Nat.repr, Nat.toDigits, hp, List.asString]
  rw [this]
  exact ⟨hdec, hval⟩

/-- C1: for non-negative integers `M`, `m`, `p` below `2^53`, the version `M.m.p`
is bumped to `M.m.(p+1)` by `patch`, to `M.(m+1).0` by `minor` and to `(M+1).0.0`
by `major`; `3.3.0` with `minor` gives `3.4.0`. -/
theorem newVersion_semver (M m p : Nat) (hM : M < 2 ^ 53) (hm : m < 2 ^ 53) (hp : p < 2 ^ 53) :
    newVersion (Nat.repr M ++ "." ++ Nat.repr m ++ "." ++ Nat.repr p) "patch"
      = some (Nat.repr M ++ "." ++ Nat.repr m ++ "." ++ Nat.repr (p + 1)) ∧
    newVersion (Nat.repr M ++ "." ++ Nat.repr m ++ "." ++ Nat.repr p) "minor"
      = some (Nat.repr M ++ "." ++ Nat.repr (m + 1) ++ "." ++ Nat.repr 0) ∧
    newVersion (Nat.repr M ++ "." ++ Nat.repr m ++ "." ++ Nat.repr p) "major"
      = some (Nat.repr (M + 1) ++ "." ++ Nat.repr 0 ++ "." ++ Nat.repr 0) ∧
    newVersion "3.3.0" "minor" = some "3.4.0" := by
  obtain ⟨dM, vM⟩ := repr_decimal M
  obtain ⟨dm, vm⟩ := repr_decimal m
  obtain ⟨dp, vp⟩ := repr_decimal p
  have hs : Nat.repr M ++ "." ++ Nat.repr m ++ "." ++ Nat.repr p =
      String.mk ((Nat.repr M).data ++ '.' :: ((Nat.repr m).data ++ '.' :: (Nat.repr p).data)) := by
    apply String.ext
    simp
  have h := newVersion_numerals _ _ _ dM dm dp (by rw [vM]; exact hM) (by rw [vm]; exact hm)
    (by rw [vp]; exact hp)
  rw [vM, vm, vp] at h
  rw [hs]
  exact ⟨h.1, h.2.1, h.2.2, by decide⟩

/-! ## Sequencing -/

theorem catchExit_snd (x : Flow × World) : (catchExit x).2 = x.2 := by
  rcases x with ⟨f, w⟩
  cases f <;> rfl

theorem andThen_proceed (w : World) (next : World → Flow × World) :
    andThen (.proceed, w) next = next w := rfl

theorem andThen_earlyReturn (w : World) (next : World → Flow × World) :
    andThen (.earlyReturn, w) next = (.earlyReturn, w) := rfl

theorem andThen_throw (e : String) (w : World) (next : World → Flow × World) :
    andThen (.throw e, w) next = (.throw e, w) := rfl

theorem issueAll_eq : ∀ (cmds : List String) (w w1 : World), issueAll cmds w = some w1 →
    w1 = { w with trace := w.trace ++ cmds.map (fun c => Event.exec c true) }
  | [], w, w1, h => by
    simp only [issueAll, Option.some.injEq] at h
    simp [← h]
  | cmd :: rest, w, w1, h => by
    simp only [issueAll, execSync] at h
    cases hr : w.run w.trace cmd with
    | error e => simp [hr] at h
    | ok out =>
      simp only [hr] at h
      have ih := issueAll_eq rest _ w1 h
      simp [ih, ExecResult.succeeded]

theorem issueAll_cons_some {cmd : String} {rest : List String} {w w1 : World}
    (h : issueAll (cmd :: rest) w = some w1) :
    (∃ out, w.run w.trace cmd = .ok out) ∧
    issueAll rest { w with trace := w.trace ++ [Event.exec cmd true] } = some w1 := by
  simp only [issueAll, execSync] at h
  cases hr : w.run w.trace cmd with
  | error e => simp [hr] at h
  | ok out =>
    simp only [hr, ExecResult.succeeded] at h
    exact ⟨⟨out, rfl⟩, h⟩

/-- Running required commands one after the other is `issueAll`. -/
theorem required_of_issueAll {cmd : String} {rest : List String} {w w1 : World}
    (h : issueAll (cmd :: rest) w = some w1) :
    required cmd w = (.proceed, { w with trace := w.trace ++ [Event.exec cmd true] }) := by
  obtain ⟨⟨out, ho⟩, _⟩ := issueAll_cons_some h
  exact required_ok ho

theorem issueAll_nil {w w1 : World} (h : issueAll [] w = some w1) : w1 = w := by
  simp only [issueAll, Option.some.injEq] at h
  exact h.symm

theorem reconcile_of_issueAll (version : String) (l r force : Bool) (w w1 : World)
    (hrow : r = true → force = true)
    (h : issueAll (deletions l r force version) w = some w1) :
    reconcile version force l r w = (.proceed, w1) := by
  cases l <;> cases r <;> cases force <;> simp at hrow <;>
    simp only [deletions] at h <;> simp [reconcile]
  · exact (issueAll_nil h).symm
  · exact (issueAll_nil h).symm
  · rw [required_of_issueAll h, issueAll_nil (issueAll_cons_some h).2]
  · rw [required_of_issueAll h, issueAll_nil (issueAll_cons_some h).2]
  · rw [required_of_issueAll h, issueAll_nil (issueAll_cons_some h).2]
  · rw [required_of_issueAll h, andThen_proceed, required_of_issueAll (issueAll_cons_some h).2,
      issueAll_nil (issueAll_cons_some (issueAll_cons_some h).2).2]

theorem required_cases (cmd : String) (w : World) :
    required cmd w = (.proceed, { w with trace := w.trace ++ [Event.exec cmd true] }) ∨
    ∃ e, required cmd w = (.throw e, { w with trace := w.trace ++ [Event.exec cmd false] }) := by
  cases h : w.run w.trace cmd with
  | ok out => exact Or.inl (required_ok h)
  | error e => exact Or.inr ⟨e, required_error h⟩

theorem extends_refl (allowed : List String) (w : World) : Extends allowed w w :=
  ⟨[], by simp, by simp⟩

theorem extends_trans {allowed : List String} {w w1 w2 : World}
    (h1 : Extends allowed w w1) (h2 : Extends allowed w1 w2) : Extends allowed w w2 := by
  obtain ⟨a1, e1, p1⟩ := h1
  obtain ⟨a2, e2, p2⟩ := h2
  refine ⟨a1 ++ a2, by rw [e2, e1, List.append_assoc], ?_⟩
  intro e he
  rcases List.mem_append.mp he with h | h
  · exact p1 e h
  · exact p2 e h

theorem extends_step {allowed : List String} (w : World) {cmd : String} (b : Bool)
    (hc : cmd ∈ allowed) :
    Extends allowed w { w with trace := w.trace ++ [Event.exec cmd b] } :=
  ⟨[Event.exec cmd b], rfl, fun e he => by
    rw [List.mem_singleton] at he
    exact ⟨cmd, b, he, hc⟩⟩

theorem extends_required {allowed : List String} (w : World) {cmd : String}
    (hc : cmd ∈ allowed) : Extends allowed w (required cmd w).2 := by
  rcases required_cases cmd w with h | ⟨e, h⟩ <;> rw [h] <;> exact extends_step w _ hc

theorem extends_andThen {allowed : List String} {w : World} {first : Flow × World}
    {next : World → Flow × World} (h1 : Extends allowed w first.2)
    (h2 : ∀ w1, Extends allowed w1 (next w1).2) : Extends allowed w (andThen first next).2 := by
  rcases first with ⟨f, w1⟩
  cases f with
  | proceed => exact extends_trans h1 (h2 w1)
  | earlyReturn => exact h1
  | throw e => exact h1

theorem extends_commitIfStaged (version : String) (w : World) :
    Extends (afterStaging version) w (commitIfStaged version w).2 := by
  simp only [commitIfStaged, execSync]
  cases w.run w.trace "git diff --cached --quiet" with
  | ok out => exact extends_step w _ (by simp [afterStaging])
  | error e =>
    exact extends_trans (extends_step w _ (by simp [afterStaging]))
      (extends_required _ (by simp [afterStaging]))

/-- The create phase starts with the staging and goes on with nothing but the
diff check, the commit, the tag and the push. -/
theorem createPhase_trace (version : String) (w : World) :
    ∃ (b : Bool) (added : List Event),
      (createPhase version w).2.trace = w.trace ++ Event.exec "git add ." b :: added ∧
      ∀ e ∈ added, ∃ c ok, e = Event.exec c ok ∧ c ∈ afterStaging version := by
  have hrest : ∀ w1 : World, Extends (afterStaging version) w1
      (andThen (commitIfStaged version w1) fun w2 =>
        andThen (required (tagCmd version) w2) fun w3 => required (pushCmd version) w3).2 := by
    intro w1
    refine extends_andThen (extends_commitIfStaged version w1) fun w2 => ?_
    refine extends_andThen (extends_required w2 (by simp [afterStaging])) fun w3 => ?_
    exact extends_required w3 (by simp [afterStaging])
  unfold createPhase
  rcases required_cases "git add ." w with h | ⟨e, h⟩ <;> rw [h]
  · rw [andThen_proceed]
    obtain ⟨added, ha, hp⟩ := hrest { w with trace := w.trace ++ [Event.exec "git add ." true] }
    exact ⟨true, added, by rw [ha]; simp, hp⟩
  · exact ⟨false, [], by simp [andThen], by simp⟩

/-- C3: in every row of the decision table that goes on to create the tag, when
the deletions of that row succeed, `createVersionTag` has issued exactly these
deletions, in the order of the table, right after the probes; the create phase
starts from there with `git add .`, and nothing but create-phase commands
follows. -/
theorem createVersionTag_deletions (w w1 w2 w3 : World) (customVersion : Option String)
    (version : String) (existsLocally existsRemotely force : Bool)
    (hpre : preflight customVersion w = (some version, w1))
    (hprobe : probeTags version w1 = (existsLocally, existsRemotely, w2))
    (hrow : existsRemotely = true → force = true)
    (hdel : issueAll (deletions existsLocally existsRemotely force version) w2 = some w3) :
    reconcile version force existsLocally existsRemotely w2 = (.proceed, w3) ∧
    w3.trace = w2.trace ++
      (deletions existsLocally existsRemotely force version).map (fun c => Event.exec c true) ∧
    createVersionTag customVersion force w = catchExit (createPhase version w3) ∧
    (∃ (b : Bool) (added : List Event),
      (createVersionTag customVersion force w).2.trace =
        w2.trace ++
          (deletions existsLocally existsRemotely force version).map (fun c => Event.exec c true)
          ++ Event.exec "git add ." b :: added ∧
      ∀ e ∈ added, ∃ c ok, e = Event.exec c ok ∧ c ∈ afterStaging version) ∧
    deletions true true true version = [deleteLocalCmd version, deleteRemoteCmd version] ∧
    deletions true false force version = [deleteLocalCmd version] ∧
    deletions false true true version = [deleteRemoteCmd version] ∧
    deletions false false force version = [] := by
  have hrec := reconcile_of_issueAll version existsLocally existsRemotely force w2 w3 hrow hdel
  have htr : w3.trace = w2.trace ++
      (deletions existsLocally existsRemotely force version).map (fun c => Event.exec c true) := by
    rw [issueAll_eq _ _ _ hdel]
  have hrun : createVersionTag customVersion force w = catchExit (createPhase version w3) := by
    simp only [createVersionTag, hpre, hprobe, hrec, andThen_proceed]
  refine ⟨hrec, htr, hrun, ?_, rfl, by cases force <;> rfl, rfl, by cases force <;> rfl⟩
  obtain ⟨b, added, ha, hp⟩ := createPhase_trace version w3
  exact ⟨b, added, by rw [hrun, catchExit_snd, ha, htr], hp⟩

theorem issueAll_one {cmd : String} {w w1 : World} (h : issueAll [cmd] w = some w1) :
    required cmd w = (.proceed, w1) := by
  rw [required_of_issueAll h, issueAll_nil (issueAll_cons_some h).2]

theorem issueAll_two {c1 c2 : String} {w w1 : World} (h : issueAll [c1, c2] w = some w1) :
    andThen (required c1 w) (required c2) = (.proceed, w1) := by
  rw [required_of_issueAll h, andThen_proceed, issueAll_one (issueAll_cons_some h).2]

/-- C4: once the create phase is reached and the staging, the commit (when one is
made), the tag creation and the push succeed, the commands issued are, in this
order, `git add .`, the quiet staged-diff check, the commit exactly when that
check exits non-zero, the annotated tag named by the version, and the push of
that tag to `origin`; the operation then returns. -/
theorem createPhase_commands (w wa wb w0 w1 w2 w3 : World) (customVersion : Option String)
    (version : String) (existsLocally existsRemotely force : Bool) (diff : ExecResult)
    (hpre : preflight customVersion w = (some version, wa))
    (hprobe : probeTags version wa = (existsLocally, existsRemotely, wb))
    (hrec : reconcile version force existsLocally existsRemotely wb = (.proceed, w0))
    (hadd : issueAll ["git add ."] w0 = some w1)
    (hdiff : execSync "git diff --cached --quiet" w1 = (diff, w2))
    (hrest : issueAll ((if diff.succeeded then [] else [commitCmd version]) ++
      [tagCmd version, pushCmd version]) w2 = some w3) :
    createVersionTag customVersion force w = (.returned, w3) ∧
    w3.trace = w0.trace ++
      [Event.exec "git add ." true, Event.exec "git diff --cached --quiet" diff.succeeded] ++
      (if diff.succeeded then [] else [Event.exec (commitCmd version) true]) ++
      [Event.exec (tagCmd version) true, Event.exec (pushCmd version) true] ∧
    commitCmd version = "git commit -m \"Release " ++ version ++ "\" --no-verify" ∧
    tagCmd version = "git tag -a " ++ version ++ " -m \"Release version " ++ version ++ "\"" ∧
    pushCmd version = "git push origin " ++ version := by
  have h1 : w1 = { w0 with trace := w0.trace ++ [Event.exec "git add ." true] } := by
    simpa using issueAll_eq _ _ _ hadd
  have h2 : w2 = { w1 with trace :=
      w1.trace ++ [Event.exec "git diff --cached --quiet" diff.succeeded] } := by
    rw [execSync_eq] at hdiff
    simp only [Prod.mk.injEq] at hdiff
    rw [← hdiff.2, hdiff.1]
  have hcommit : andThen (commitIfStaged version w1) (fun w2 =>
      andThen (required (tagCmd version) w2) fun w3 => required (pushCmd version) w3)
      = (.proceed, w3) := by
    have hd : (execSync "git diff --cached --quiet" w1).1 = diff := by rw [hdiff]
    have hw : (execSync "git diff --cached --quiet" w1).2 = w2 := by rw [hdiff]
    cases diff with
    | ok out =>
      simp only [ExecResult.succeeded, if_true, List.nil_append] at hrest
      simp only [commitIfStaged, hd, hw, andThen_proceed]
      exact issueAll_two hrest
    | error e =>
      simp only [ExecResult.succeeded, Bool.false_eq_true, if_false, List.singleton_append]
        at hrest
      simp only [commitIfStaged, hd, hw]
      rw [required_of_issueAll hrest, andThen_proceed]
      exact issueAll_two (issueAll_cons_some hrest).2
  refine ⟨?_, ?_, rfl, rfl, rfl⟩
  · simp only [createVersionTag, hpre, hprobe, hrec, andThen_proceed, createPhase]
    rw [issueAll_one hadd, andThen_proceed, hcommit]
    rfl
  · rw [issueAll_eq _ _ _ hrest, h2, h1]
    cases diff <;> simp [ExecResult.succeeded]

/-! ## Failures of mutating steps -/

theorem revParse_not_mutating (v version : String) :
    "git rev-parse " ++ v ∉ mutatingSteps version := by
  simp [mutatingSteps, deleteLocalCmd, deleteRemoteCmd, commitCmd, tagCmd, pushCmd,
    String.ext_iff]

theorem lsRemote_not_mutating (v version : String) :
    "git ls-remote --tags origin " ++ v ∉ mutatingSteps version := by
  simp [mutatingSteps, deleteLocalCmd, deleteRemoteCmd, commitCmd, tagCmd, pushCmd,
    String.ext_iff]

theorem diff_not_mutating (version : String) :
    "git diff --cached --quiet" ∉ mutatingSteps version := by
  simp [mutatingSteps, deleteLocalCmd, deleteRemoteCmd, commitCmd, tagCmd, pushCmd,
    String.ext_iff]

theorem clean_nil : Clean [] := by
  intro e he
  simp at he

theorem clean_append {a b : List Event} (ha : Clean a) (hb : Clean b) : Clean (a ++ b) := by
  intro e he
  rcases List.mem_append.mp he with h | h
  · exact ha e h
  · exact hb e h

theorem clean_succeeded (cmd : String) : Clean [Event.exec cmd true] := by
  intro e he
  rw [List.mem_singleton] at he
  rintro ⟨c, v, h, _⟩
  rw [he] at h
  simp at h

theorem clean_of_not_mutating {cmd : String} (b : Bool)
    (h : ∀ version, cmd ∉ mutatingSteps version) : Clean [Event.exec cmd b] := by
  intro e he
  rw [List.mem_singleton] at he
  rintro ⟨c, v, h1, h2⟩
  rw [he] at h1
  simp only [Event.exec.injEq] at h1
  rw [← h1.1] at h2
  exact h v h2

theorem stops_pure (w : World) (f : Flow) : StopsAtFailure w (f, w) :=
  ⟨[], [], by simp, clean_nil, Or.inl rfl⟩

theorem stops_required (cmd : String) (w : World) : StopsAtFailure w (required cmd w) := by
  rcases required_cases cmd w with h | ⟨e, h⟩ <;> rw [h]
  · exact ⟨[Event.exec cmd true], [], by simp, clean_succeeded cmd, Or.inl rfl⟩
  · exact ⟨[], [Event.exec cmd false], by simp, clean_nil, Or.inr ⟨⟨cmd, rfl⟩, e, rfl⟩⟩

theorem stops_after_clean {w w1 : World} {x : Flow × World} {a : List Event}
    (hw : w1.trace = w.trace ++ a) (ha : Clean a) (h : StopsAtFailure w1 x) :
    StopsAtFailure w x := by
  obtain ⟨clean, tail, ht, hc, hl⟩ := h
  exact ⟨a ++ clean, tail, by rw [ht, hw]; simp, clean_append ha hc, hl⟩

theorem stops_andThen {w : World} {first : Flow × World} {next : World → Flow × World}
    (h1 : StopsAtFailure w first) (h2 : ∀ w1, StopsAtFailure w1 (next w1)) :
    StopsAtFailure w (andThen first next) := by
  rcases first with ⟨f, w1⟩
  cases f with
  | earlyReturn => exact h1
  | throw e => exact h1
  | proceed =>
    obtain ⟨clean, tail, ht, hc, hl⟩ := h1
    rcases hl with rfl | ⟨_, e, he⟩
    · rw [andThen_proceed]
      exact stops_after_clean (by simpa using ht) hc (h2 w1)
    · simp at he

theorem stops_commitIfStaged (version : String) (w : World) :
    StopsAtFailure w (commitIfStaged version w) := by
  simp only [commitIfStaged, execSync]
  cases w.run w.trace "git diff --cached --quiet" with
  | ok out =>
    exact ⟨[Event.exec "git diff --cached --quiet" true], [], by simp [ExecResult.succeeded],
      clean_succeeded _, Or.inl rfl⟩
  | error e =>
    exact stops_after_clean (a := [Event.exec "git diff --cached --quiet" false]) rfl
      (clean_of_not_mutating false diff_not_mutating) (stops_required _ _)

theorem stops_createPhase (version : String) (w : World) :
    StopsAtFailure w (createPhase version w) := by
  unfold createPhase
  refine stops_andThen (stops_required _ _) fun w1 => ?_
  refine stops_andThen (stops_commitIfStaged _ _) fun w2 => ?_
  exact stops_andThen (stops_required _ _) fun w3 => stops_required _ _

theorem stops_reconcile (version : String) (force l r : Bool) (w : World) :
    StopsAtFailure w (reconcile version force l r w) := by
  cases l <;> cases r <;> cases force <;> simp [reconcile] <;>
    first
    | exact stops_pure _ _
    | exact stops_required _ _
    | exact stops_andThen (stops_required _ _) fun w1 => stops_required _ _

theorem preflight_none {customVersion : Option String} {w w1 : World}
    (h : preflight customVersion w = (none, w1)) :
    w1 = w ∨ w1 = { w with trace := w.trace ++ [Event.exec "git status" false] } := by
  unfold preflight at h
  simp only [execSync] at h
  split at h
  · simp at h
    exact Or.inl h.symm
  · cases hr : w.run w.trace "git status" <;> simp [hr, ExecResult.succeeded] at h
    exact Or.inr h.symm

/-- The trace of a whole run of `createVersionTag`: events without any failed
mutating step, then nothing more, or one failed command and exit status 1. -/
theorem createVersionTag_shape (customVersion : Option String) (force : Bool) (w : World) :
    ∃ clean tail : List Event,
      (createVersionTag customVersion force w).2.trace = w.trace ++ clean ++ tail ∧
      Clean clean ∧
      (tail = [] ∨ (∃ c, tail = [Event.exec c false]) ∧
        (createVersionTag customVersion force w).1 = .exit 1) := by
  unfold createVersionTag
  rcases hp : preflight customVersion w with ⟨v, w1⟩
  cases v with
  | none =>
    rcases preflight_none hp with h | h
    · exact ⟨[], [], by simp [h], clean_nil, Or.inl rfl⟩
    · exact ⟨[], [Event.exec "git status" false], by simp [h], clean_nil,
        Or.inr ⟨⟨_, rfl⟩, rfl⟩⟩
  | some version =>
    have h1 := preflight_some hp
    simp only
    have hq := probeTags_eq version w1
    have hstop : StopsAtFailure (probeTags version w1).2.2
        (andThen (reconcile version force (probeTags version w1).1 (probeTags version w1).2.1
          (probeTags version w1).2.2) (createPhase version)) :=
      stops_andThen (stops_reconcile _ _ _ _ _) fun w2 => stops_createPhase _ _
    have hpre : Clean
        [Event.exec "git status" true,
         Event.exec ("git rev-parse " ++ version)
          (w1.run w1.trace ("git rev-parse " ++ version)).succeeded,
         Event.exec ("git ls-remote --tags origin " ++ version)
          (w1.run (w1.trace ++ [Event.exec ("git rev-parse " ++ version)
            (w1.run w1.trace ("git rev-parse " ++ version)).succeeded])
            ("git ls-remote --tags origin " ++ version)).succeeded] :=
      clean_append (a := [_]) (clean_succeeded _)
        (clean_append (a := [_]) (clean_of_not_mutating _ (revParse_not_mutating version))
          (clean_of_not_mutating _ (lsRemote_not_mutating version)))
    have hstop2 := stops_after_clean (w := w) (by rw [hq, h1]; simp) hpre hstop
    obtain ⟨clean, tail, ht, hc, hl⟩ := hstop2
    refine ⟨clean, tail, by rw [catchExit_snd, ht], hc, ?_⟩
    rcases hl with h | ⟨hc1, e, he⟩
    · exact Or.inl h
    · refine Or.inr ⟨hc1, ?_⟩
      generalize andThen (reconcile version force (probeTags version w1).1
        (probeTags version w1).2.1 (probeTags version w1).2.2) (createPhase version) = x at he
      rcases x with ⟨f, wx⟩
      simp only at he
      rw [he]
      rfl

/-- C5: in any run of `createVersionTag`, a failed mutating step (local tag
delete, remote tag delete, commit, tag create, push) is the last command issued,
and the run ends with exit status 1. -/
theorem createVersionTag_mutation_failure (w : World) (customVersion : Option String)
    (force : Bool) (pre post : List Event) (cmd version : String)
    (htrace : (createVersionTag customVersion force w).2.trace =
      w.trace ++ pre ++ Event.exec cmd false :: post)
    (hcmd : cmd ∈ mutatingSteps version) :
    post = [] ∧ (createVersionTag customVersion force w).1 = .exit 1 := by
  obtain ⟨clean, tail, ht, hc, hl⟩ := createVersionTag_shape customVersion force w
  rw [htrace, List.append_assoc, List.append_assoc, List.append_cancel_left_eq] at ht
  have hfm : FailedMutation (Event.exec cmd false) := ⟨cmd, version, rfl, hcmd⟩
  rcases List.append_eq_append_iff.mp ht with ⟨a', h1, h2⟩ | ⟨c', h1, h2⟩
  · cases a' with
    | cons x xs =>
      -- the failed step lies among the clean events
      simp only [List.cons_append, List.cons.injEq] at h2
      exact absurd hfm (hc _ (by rw [h1, ← h2.1]; simp))
    | nil =>
      rcases hl with rfl | ⟨⟨c, rfl⟩, hexit⟩
      · simp at h2
      · simp only [List.nil_append, List.cons.injEq] at h2
        exact ⟨h2.2, hexit⟩
  · rcases hl with rfl | ⟨⟨c, rfl⟩, hexit⟩
    · simp at h2
    · cases c' with
      | nil =>
        simp only [List.nil_append, List.cons.injEq] at h2
        exact ⟨h2.2.symm, hexit⟩
      | cons x xs =>
        simp only [List.cons_append, List.cons.injEq] at h2
        have := h2.2
        simp at this

/-! ## Witnesses for the bump, the deletions, the create phase and failures -/

theorem newVersion_semver_witness :
    newVersion "12.7.41" "patch" = some "12.7.42" ∧
    newVersion "12.7.41" "minor" = some "12.8.0" ∧
    newVersion "12.7.41" "major" = some "13.0.0" :=
  have h := newVersion_semver 12 7 41 (by decide) (by decide) (by decide)
  ⟨h.1, h.2.1, h.2.2.1⟩

theorem createVersionTag_deletions_witness :
    (createVersionTag none true taggedWorld).2.trace =
      [Event.exec "git status" true, Event.exec "git rev-parse 1.2.3" true,
       Event.exec "git ls-remote --tags origin 1.2.3" true,
       Event.exec "git tag -d 1.2.3" true, Event.exec "git push --delete origin 1.2.3" true,
       Event.exec "git add ." true, Event.exec "git diff --cached --quiet" true,
       Event.exec "git tag -a 1.2.3 -m \"Release version 1.2.3\"" true,
       Event.exec "git push origin 1.2.3" true] ∧
    reconcile "1.2.3" true true true { taggedWorld with trace :=
        [Event.exec "git status" true, Event.exec "git rev-parse 1.2.3" true,
         Event.exec "git ls-remote --tags origin 1.2.3" true] } =
      (.proceed, { taggedWorld with trace :=
        [Event.exec "git status" true, Event.exec "git rev-parse 1.2.3" true,
         Event.exec "git ls-remote --tags origin 1.2.3" true,
         Event.exec "git tag -d 1.2.3" true,
         Event.exec "git push --delete origin 1.2.3" true] }) :=
  ⟨rfl, (createVersionTag_deletions taggedWorld
    { taggedWorld with trace := [Event.exec "git status" true] }
    { taggedWorld with trace :=
        [Event.exec "git status" true, Event.exec "git rev-parse 1.2.3" true,
         Event.exec "git ls-remote --tags origin 1.2.3" true] }
    { taggedWorld with trace :=
        [Event.exec "git status" true, Event.exec "git rev-parse 1.2.3" true,
         Event.exec "git ls-remote --tags origin 1.2.3" true,
         Event.exec "git tag -d 1.2.3" true,
         Event.exec "git push --delete origin 1.2.3" true] }
    none "1.2.3" true true true rfl rfl (fun _ => rfl) rfl).1⟩

theorem createPhase_commands_witness :
    createVersionTag none false (freshWorld "3.3.0") =
      (.returned, { freshWorld "3.3.0" with trace :=
        [Event.exec "git status" true, Event.exec "git rev-parse 3.3.0" false,
         Event.exec "git ls-remote --tags origin 3.3.0" true,
         Event.exec "git add ." true, Event.exec "git diff --cached --quiet" false,
         Event.exec "git commit -m \"Release 3.3.0\" --no-verify" true,
         Event.exec "git tag -a 3.3.0 -m \"Release version 3.3.0\"" true,
         Event.exec "git push origin 3.3.0" true] }) :=
  (createPhase_commands (freshWorld "3.3.0")
    { freshWorld "3.3.0" with trace := [Event.exec "git status" true] }
    { freshWorld "3.3.0" with trace :=
        [Event.exec "git status" true, Event.exec "git rev-parse 3.3.0" false,
         Event.exec "git ls-remote --tags origin 3.3.0" true] }
    { freshWorld "3.3.0" with trace :=
        [Event.exec "git status" true, Event.exec "git rev-parse 3.3.0" false,
         Event.exec "git ls-remote --tags origin 3.3.0" true] }
    { freshWorld "3.3.0" with trace :=
        [Event.exec "git status" true, Event.exec "git rev-parse 3.3.0" false,
         Event.exec "git ls-remote --tags origin 3.3.0" true,
         Event.exec "git add ." true] }
    { freshWorld "3.3.0" with trace :=
        [Event.exec "git status" true, Event.exec "git rev-parse 3.3.0" false,
         Event.exec "git ls-remote --tags origin 3.3.0" true,
         Event.exec "git add ." true, Event.exec "git diff --cached --quiet" false] }
    { freshWorld "3.3.0" with trace :=
        [Event.exec "git status" true, Event.exec "git rev-parse 3.3.0" false,
         Event.exec "git ls-remote --tags origin 3.3.0" true,
         Event.exec "git add ." true, Event.exec "git diff --cached --quiet" false,
         Event.exec "git commit -m \"Release 3.3.0\" --no-verify" true,
         Event.exec "git tag -a 3.3.0 -m \"Release version 3.3.0\"" true,
         Event.exec "git push origin 3.3.0" true] }
    none "3.3.0" false false false (.error "Command failed") rfl rfl rfl rfl rfl rfl).1

theorem createVersionTag_mutation_failure_witness :
    (createVersionTag none true deleteFailsWorld).2.trace =
      [Event.exec "git status" true, Event.exec "git rev-parse 1.2.3" true,
       Event.exec "git ls-remote --tags origin 1.2.3" true,
       Event.exec "git tag -d 1.2.3" false] ∧
    (createVersionTag none true deleteFailsWorld).1 = .exit 1 :=
  ⟨rfl, (createVersionTag_mutation_failure deleteFailsWorld none true
    [Event.exec "git status" true, Event.exec "git rev-parse 1.2.3" true,
     Event.exec "git ls-remote --tags origin 1.2.3" true] [] "git tag -d 1.2.3" "1.2.3"
    rfl (by decide)).2⟩

/-! ## The tag reconciler: decisions -/

/-- C2: when the tag exists remotely and `force` is false, whatever the local
probe said, `createVersionTag` returns normally in the world the probes left: the
only commands ever run are the repository check and the two probes, and the
manifest is untouched. -/
theorem createVersionTag_remote_no_force (w w1 w2 : World) (customVersion : Option String)
    (version : String) (existsLocally : Bool)
    (hpre : preflight customVersion w = (some version, w1))
    (hprobe : probeTags version w1 = (existsLocally, true, w2)) :
    createVersionTag customVersion false w = (.returned, w2) ∧
    w2.trace = w.trace ++
      [Event.exec "git status" true,
       Event.exec ("git rev-parse " ++ version) existsLocally,
       Event.exec ("git ls-remote --tags origin " ++ version) true] ∧
    w2.manifest = w.manifest := by
  have h1 := preflight_some hpre
  have h2 := probeTags_eq version w1
  rw [hprobe] at h2
  simp only [Prod.mk.injEq] at h2
  obtain ⟨hl, hr, hw⟩ := h2
  refine ⟨?_, ?_, ?_⟩
  · simp only [createVersionTag, hpre, hprobe]
    cases existsLocally <;> simp [reconcile, catchExit, andThen]
  · rw [hw, ← hl]
    have hs : (w1.run (w1.trace ++ [Event.exec ("git rev-parse " ++ version) existsLocally])
        ("git ls-remote --tags origin " ++ version)).succeeded = true := by
      rw [← hl] at hr
      cases hq : w1.run (w1.trace ++ [Event.exec ("git rev-parse " ++ version) existsLocally])
        ("git ls-remote --tags origin " ++ version) with
      | ok o => rfl
      | error e => rw [hq] at hr; simp at hr
    rw [hs, h1]
    simp
  · rw [hw, h1]

theorem createVersionTag_remote_no_force_witness :
    preflight none taggedWorld =
      (some "1.2.3", { taggedWorld with trace := [Event.exec "git status" true] }) ∧
    probeTags "1.2.3" { taggedWorld with trace := [Event.exec "git status" true] } =
      (true, true, { taggedWorld with trace :=
        [Event.exec "git status" true, Event.exec "git rev-parse 1.2.3" true,
         Event.exec "git ls-remote --tags origin 1.2.3" true] }) ∧
    createVersionTag none false taggedWorld =
      (.returned, { taggedWorld with trace :=
        [Event.exec "git status" true, Event.exec "git rev-parse 1.2.3" true,
         Event.exec "git ls-remote --tags origin 1.2.3" true] }) :=
  ⟨rfl, rfl,
    (createVersionTag_remote_no_force taggedWorld _ _ none "1.2.3" true rfl rfl).1⟩

/-- C9: after the repository check, neither probe can end the run.  The local
flag is true exactly when `git rev-parse` succeeds; the remote flag is true
exactly when `git ls-remote` succeeds with output that is not blank; the run goes
on to the decision with these flags; and when both probes fail it goes straight
to the create phase, as in the row (false, false). -/
theorem probes_never_fatal (w w1 : World) (customVersion : Option String) (force : Bool)
    (version : String) (hpre : preflight customVersion w = (some version, w1)) :
    ((probeTags version w1).1 = true ↔
      ∃ out, w1.run w1.trace ("git rev-parse " ++ version) = .ok out) ∧
    ((probeTags version w1).2.1 = true ↔
      ∃ out, w1.run (w1.trace ++ [Event.exec ("git rev-parse " ++ version)
          (probeTags version w1).1]) ("git ls-remote --tags origin " ++ version) = .ok out ∧
        jsTrim out.data ≠ []) ∧
    (∃ b, (probeTags version w1).2.2 = { w1 with trace := w1.trace ++
      [Event.exec ("git rev-parse " ++ version) (probeTags version w1).1,
       Event.exec ("git ls-remote --tags origin " ++ version) b] }) ∧
    createVersionTag customVersion force w =
      catchExit (andThen (reconcile version force (probeTags version w1).1
        (probeTags version w1).2.1 (probeTags version w1).2.2) (createPhase version)) ∧
    ((∃ e1, w1.run w1.trace ("git rev-parse " ++ version) = .error e1) →
     (∃ e2, w1.run (w1.trace ++ [Event.exec ("git rev-parse " ++ version) false])
        ("git ls-remote --tags origin " ++ version) = .error e2) →
      reconcile version force false false (probeTags version w1).2.2 =
        (.proceed, (probeTags version w1).2.2) ∧
      createVersionTag customVersion force w =
        catchExit (createPhase version { w1 with trace := w1.trace ++
          [Event.exec ("git rev-parse " ++ version) false,
           Event.exec ("git ls-remote --tags origin " ++ version) false] })) := by
  have hq := probeTags_eq version w1
  have hrun : createVersionTag customVersion force w =
      catchExit (andThen (reconcile version force (probeTags version w1).1
        (probeTags version w1).2.1 (probeTags version w1).2.2) (createPhase version)) := by
    simp only [createVersionTag, hpre]
  refine ⟨?_, ?_, ?_, hrun, ?_⟩
  · rw [hq]
    cases h : w1.run w1.trace ("git rev-parse " ++ version) <;> simp [ExecResult.succeeded]
  · rw [hq]
    simp only
    cases h : w1.run (w1.trace ++ [Event.exec ("git rev-parse " ++ version)
        (w1.run w1.trace ("git rev-parse " ++ version)).succeeded])
        ("git ls-remote --tags origin " ++ version) with
    | ok out =>
      simp only [ExecResult.ok.injEq, exists_eq_left', decide_eq_true_eq]
      cases jsTrim out.data <;> simp
    | error e => simp
  · rw [hq]
    exact ⟨_, rfl⟩
  · rintro ⟨e1, h1⟩ ⟨e2, h2⟩
    rw [hrun, hq]
    simp [h1, h2, ExecResult.succeeded, reconcile, andThen]

theorem probes_never_fatal_witness :
    preflight none offlineWorld =
      (some "3.3.0", { offlineWorld with trace := [Event.exec "git status" true] }) ∧
    createVersionTag none true offlineWorld =
      catchExit (createPhase "3.3.0" { offlineWorld with trace :=
        [Event.exec "git status" true, Event.exec "git rev-parse 3.3.0" false,
         Event.exec "git ls-remote --tags origin 3.3.0" false] }) :=
  ⟨rfl, ((probes_never_fatal offlineWorld _ none true "3.3.0" rfl).2.2.2.2
    ⟨_, rfl⟩ ⟨_, rfl⟩).2⟩

/-! ## The version pattern -/

theorem mem_anyOf (cs : List Char) (x : List Char) :
    x ∈ (anyOf cs).matches' ↔ ∃ c ∈ cs, x = [c] := by
  induction cs with
  | nil =>
    simp only [anyOf, List.foldr_nil, RegularExpression.matches'_zero, List.not_mem_nil,
      false_and, exists_false, iff_false]
    exact fun h => h
  | cons c cs ih =>
    have : anyOf (c :: cs) = RegularExpression.char c + anyOf cs := rfl
    rw [this, RegularExpression.matches'_add, Language.mem_add, ih,
      RegularExpression.matches'_char]
    constructor
    · rintro (h | ⟨d, hd, rfl⟩)
      · exact ⟨c, List.mem_cons_self _ _, h⟩
      · exact ⟨d, List.mem_cons_of_mem _ hd, rfl⟩
    · rintro ⟨d, hd, rfl⟩
      rcases List.mem_cons.mp hd with rfl | h
      · exact Or.inl rfl
      · exact Or.inr ⟨d, h, rfl⟩

theorem mem_star_anyOf (cs : List Char) (x : List Char) :
    x ∈ (anyOf cs).star.matches' ↔ ∀ c ∈ x, c ∈ cs := by
  rw [RegularExpression.matches'_star, Language.mem_kstar]
  constructor
  · rintro ⟨L, rfl, hL⟩ c hc
    obtain ⟨y, hy, hcy⟩ := List.mem_flatten.mp hc
    obtain ⟨d, hd, rfl⟩ := (mem_anyOf cs y).mp (hL y hy)
    rw [List.mem_singleton] at hcy
    rw [hcy]; exact hd
  · intro h
    refine ⟨x.map (fun c => [c]), ?_, ?_⟩
    · clear h
      induction x with
      | nil => rfl
      | cons a t ih => simp [← ih]
    · intro y hy
      obtain ⟨c, hc, rfl⟩ := List.mem_map.mp hy
      exact (mem_anyOf cs [c]).mpr ⟨c, h c hc, rfl⟩

theorem mem_oneOrMore_anyOf (cs : List Char) (x : List Char) :
    x ∈ (oneOrMore (anyOf cs)).matches' ↔ x ≠ [] ∧ ∀ c ∈ x, c ∈ cs := by
  unfold oneOrMore
  rw [RegularExpression.matches'_mul, Language.mem_mul]
  constructor
  · rintro ⟨a, ha, b, hb, rfl⟩
    obtain ⟨c, hc, rfl⟩ := (mem_anyOf cs a).mp ha
    refine ⟨by simp, ?_⟩
    intro d hd
    rcases List.mem_append.mp hd with h | h
    · rw [List.mem_singleton] at h; rw [h]; exact hc
    · exact (mem_star_anyOf cs b).mp hb d h
  · rintro ⟨hne, h⟩
    cases x with
    | nil => exact absurd rfl hne
    | cons c t =>
      exact ⟨[c], (mem_anyOf cs [c]).mpr ⟨c, h c (List.mem_cons_self _ _), rfl⟩, t,
        (mem_star_anyOf cs t).mpr (fun d hd => h d (List.mem_cons_of_mem _ hd)), rfl⟩

theorem mem_suffix (x : List Char) :
    x ∈ (optional (RegularExpression.char '-' * oneOrMore (anyOf suffixChars))).matches' ↔
      (x = [] ∨ ∃ t : List Char, x = '-' :: t ∧ t ≠ [] ∧ ∀ c ∈ t, c ∈ suffixChars) := by
  unfold optional
  rw [RegularExpression.matches'_add, Language.mem_add, RegularExpression.matches'_mul,
    Language.mem_mul, RegularExpression.matches'_epsilon, Language.mem_one]
  constructor
  · rintro (⟨a, ha, b, hb, rfl⟩ | h)
    · rw [RegularExpression.matches'_char] at ha
      have ha' : a = ['-'] := ha
      obtain ⟨h1, h2⟩ := (mem_oneOrMore_anyOf _ b).mp hb
      exact Or.inr ⟨b, by rw [ha']; rfl, h1, h2⟩
    · exact Or.inl h
  · rintro (h | ⟨t, rfl, h1, h2⟩)
    · exact Or.inr h
    · exact Or.inl ⟨['-'], by rw [RegularExpression.matches'_char]; rfl, t,
        (mem_oneOrMore_anyOf _ t).mpr ⟨h1, h2⟩, rfl⟩

/-- The pattern accepts exactly the strings of the specified form. -/
theorem versionRegex_matches_iff (x : List Char) :
    versionRegex.rmatch x = true ↔ SemverForm x := by
  rw [RegularExpression.rmatch_iff_matches']
  unfold versionRegex SemverForm
  simp only [RegularExpression.matches'_mul, Language.mem_mul, mem_oneOrMore_anyOf, mem_suffix,
    RegularExpression.matches'_char]
  constructor
  · rintro ⟨p5, ⟨p4, ⟨p3, ⟨p2, ⟨a, ha, d1, hd1, rfl⟩, b, hb, rfl⟩, d2, hd2, rfl⟩, c, hc, rfl⟩,
      rest, hrest, rfl⟩
    have e1 : d1 = ['.'] := hd1
    have e2 : d2 = ['.'] := hd2
    subst e1 e2
    exact ⟨a, b, c, rest, by simp, ha, hb, hc, hrest⟩
  · rintro ⟨a, b, c, rest, rfl, ha, hb, hc, hrest⟩
    exact ⟨a ++ ['.'] ++ b ++ ['.'] ++ c,
      ⟨a ++ ['.'] ++ b ++ ['.'], ⟨a ++ ['.'] ++ b, ⟨a ++ ['.'], ⟨a, ha, ['.'], rfl, rfl⟩,
        b, hb, rfl⟩, ['.'], rfl, rfl⟩, c, hc, rfl⟩, rest, hrest, by simp⟩

/-! ## The command line, the repository check and malformed versions -/

/-- C6 as amended: the pattern accepts a string exactly when it has the specified
form (three runs of ASCII digits separated by dots, optionally `-` and one or
more of letters, digits, `_`, `.`, `-`); it rejects `1.2`, `v1.2.3` and `1.2.3.4`
and accepts `1.2.3` and `1.2.3-beta.1`.  The `tag` subcommand applies it to a
non-empty override that is not a force flag: when the override matches, the
subcommand goes on to `createVersionTag` with that override and the force flag
of the arguments; when it does not, the subcommand ends with exit status 1 in
an unchanged world, no command having been run.  An empty argument is not
validated: it is no override, and the manifest version is tagged. -/
theorem tag_version_validation (s v : String) (args : List String) (force : Bool) (w : World) :
    (versionRegexTest s = true ↔ SemverForm s.data) ∧
    versionRegexTest "1.2" = false ∧
    versionRegexTest "v1.2.3" = false ∧
    versionRegexTest "1.2.3.4" = false ∧
    versionRegexTest "1.2.3" = true ∧
    versionRegexTest "1.2.3-beta.1" = true ∧
    (args[0]? = some "tag" → args[1]? = some v → v ≠ "" → v ≠ "force-update" → v ≠ "-f" →
      cli args w =
        if versionRegexTest v = true then
          some (createVersionTag (some v)
            (args.contains "force-update" || args.contains "-f") w)
        else some (.exit 1, w)) ∧
    (args[0]? = some "tag" → args[1]? = some "" →
      cli args w =
        some (createVersionTag none (args.contains "force-update" || args.contains "-f") w)) ∧
    createVersionTag (some "") force w = createVersionTag none force w := by
  refine ⟨versionRegex_matches_iff s.data, by decide, by decide, by decide, by decide,
    by decide, ?_, ?_, rfl⟩
  · intro h0 h1 hne hf1 hf2
    cases hm : versionRegexTest v <;> simp [cli, h0, h1, truthy, hne, hf1, hf2, hm]
  · intro h0 h1
    have he : ∀ f, createVersionTag (some "") f w = createVersionTag none f w := fun _ => rfl
    simp [cli, h0, h1, truthy, he]

theorem tag_version_validation_witness :
    cli ["tag", "v1.2.3", "force-update"] taggedWorld = some (.exit 1, taggedWorld) ∧
    cli ["tag", "1.2.3", "force-update"] taggedWorld =
      some (createVersionTag (some "1.2.3") true taggedWorld) ∧
    cli ["tag", ""] taggedWorld = some (createVersionTag none false taggedWorld) :=
  ⟨(tag_version_validation "v1.2.3" "v1.2.3" ["tag", "v1.2.3", "force-update"] true
      taggedWorld).2.2.2.2.2.2.1 rfl rfl (by decide) (by decide) (by decide),
   (tag_version_validation "1.2.3" "1.2.3" ["tag", "1.2.3", "force-update"] true
      taggedWorld).2.2.2.2.2.2.1 rfl rfl (by decide) (by decide) (by decide),
   (tag_version_validation "" "" ["tag", ""] false taggedWorld).2.2.2.2.2.2.2.1 rfl rfl⟩

/-- C6 as stated fails at the empty override: the argument `""` is not a force
flag and does not match the pattern, yet `tag ""` does not exit with status 1;
it stages, commits, tags and pushes the manifest version `3.3.0` and returns. -/
theorem tag_empty_override_not_rejected :
    versionRegexTest "" = false ∧
    "" ≠ "force-update" ∧ "" ≠ "-f" ∧
    cli ["tag", ""] (freshWorld "3.3.0") =
      some (.returned, { freshWorld "3.3.0" with trace :=
        [Event.exec "git status" true, Event.exec "git rev-parse 3.3.0" false,
         Event.exec "git ls-remote --tags origin 3.3.0" true,
         Event.exec "git add ." true, Event.exec "git diff --cached --quiet" false,
         Event.exec "git commit -m \"Release 3.3.0\" --no-verify" true,
         Event.exec "git tag -a 3.3.0 -m \"Release version 3.3.0\"" true,
         Event.exec "git push origin 3.3.0" true] }) ∧
    cli ["tag", ""] (freshWorld "3.3.0") ≠ some (.exit 1, freshWorld "3.3.0") := by
  have h : cli ["tag", ""] (freshWorld "3.3.0") =
      some (.returned, { freshWorld "3.3.0" with trace :=
        [Event.exec "git status" true, Event.exec "git rev-parse 3.3.0" false,
         Event.exec "git ls-remote --tags origin 3.3.0" true,
         Event.exec "git add ." true, Event.exec "git diff --cached --quiet" false,
         Event.exec "git commit -m \"Release 3.3.0\" --no-verify" true,
         Event.exec "git tag -a 3.3.0 -m \"Release version 3.3.0\"" true,
         Event.exec "git push origin 3.3.0" true] }) := rfl
  refine ⟨by decide, by decide, by decide, h, ?_⟩
  rw [h]
  intro hc
  simp at hc

/-- C7 as amended: when the repository check fails, `createVersionTag` ends with
exit status 1 having run at most `git status` and written nothing;
`updateVersionAndTag` also ends with exit status 1 and runs no git command but
`git status`, yet by then it has written the bumped version to the manifest,
unless reading or writing the manifest failed first. -/
theorem repository_check_failure (w : World) (customVersion : Option String) (force : Bool)
    (type version bumped : String) (hrepo : NotARepository w) :
    (createVersionTag customVersion force w = (.exit 1, w) ∨
     createVersionTag customVersion force w =
      (.exit 1, { w with trace := w.trace ++ [Event.exec "git status" false] })) ∧
    (w.manifest = some version → newVersion version type = some bumped →
      w.manifestWritable = true →
      updateVersionAndTag type w = some (.exit 1, { w with
        manifest := some bumped
        trace := w.trace ++ [Event.writeManifest bumped, Event.exec "git status" false] })) ∧
    (w.manifest = some version → newVersion version type = some bumped →
      w.manifestWritable = false → updateVersionAndTag type w = some (.exit 1, w)) ∧
    (w.manifest = none → updateVersionAndTag type w = some (.exit 1, w)) := by
  have key : ∀ (cv : Option String) (f : Bool) (w0 : World), w0.run = w.run →
      createVersionTag cv f w0 = (.exit 1, w0) ∨
      createVersionTag cv f w0 =
        (.exit 1, { w0 with trace := w0.trace ++ [Event.exec "git status" false] }) := by
    intro cv f w0 hrun
    have hs : (w0.run w0.trace "git status").succeeded = false := by rw [hrun]; exact hrepo _
    rcases hp : preflight cv w0 with ⟨ver, w1⟩
    cases ver with
    | some ver =>
      have h1 := preflight_some hp
      exfalso
      unfold preflight at hp
      simp only [execSync] at hp
      split at hp
      · simp at hp
      · cases hr : w0.run w0.trace "git status" with
        | ok out => rw [hr] at hs; simp [ExecResult.succeeded] at hs
        | error e => simp [hr] at hp
    | none =>
      rcases preflight_none hp with h | h
      · left; simp only [createVersionTag, hp, h]
      · right; simp only [createVersionTag, hp, h]
  refine ⟨key customVersion force w rfl, ?_, ?_, ?_⟩
  · intro hm hv hw
    simp only [updateVersionAndTag, hm, hv]
    rw [if_pos hw]
    have hk := key none false
      ⟨w.run, some bumped, w.manifestWritable, w.trace ++ [Event.writeManifest bumped]⟩ rfl
    rcases hk with h | h
    · exfalso
      simp only [createVersionTag, preflight, execSync] at h
      cases hr : w.run (w.trace ++ [Event.writeManifest bumped]) "git status" <;>
        simp [hr, ExecResult.succeeded, catchExit] at h
      have := hrepo (w.trace ++ [Event.writeManifest bumped])
      rw [hr] at this
      simp [ExecResult.succeeded] at this
    · rw [h]; simp
  · intro hm hv hw
    simp [updateVersionAndTag, hm, hv, hw]
  · intro hm
    simp [updateVersionAndTag, hm]

theorem repository_check_failure_witness :
    createVersionTag (some "3.3.0") true noRepoWorld =
      (.exit 1, { noRepoWorld with trace := [Event.exec "git status" false] }) ∧
    updateVersionAndTag "minor" noRepoWorld = some (.exit 1, { noRepoWorld with
      manifest := some "3.4.0"
      trace := [Event.writeManifest "3.4.0", Event.exec "git status" false] }) :=
  ⟨rfl, (repository_check_failure noRepoWorld none false "minor" "3.3.0" "3.4.0"
    (fun _ => rfl)).2.1 rfl (by decide) rfl⟩

/-- C7 as stated fails for `updateVersionAndTag`: outside a repository the bump
of `3.3.0` ends with exit status 1, but the manifest has been rewritten to
`3.4.0` before `git status` was run. -/
theorem updateVersionAndTag_writes_before_check :
    NotARepository noRepoWorld ∧
    noRepoWorld.manifest = some "3.3.0" ∧
    ∃ w1 : World, updateVersionAndTag "minor" noRepoWorld = some (.exit 1, w1) ∧
      w1.manifest = some "3.4.0" ∧
      w1.trace = [Event.writeManifest "3.4.0", Event.exec "git status" false] :=
  ⟨fun _ => rfl, rfl, _, rfl, rfl, rfl⟩

/-- C8 at its failing inputs: with the manifest at `1.2` the patch bump writes
`1.2.NaN`, stages, commits, tags and pushes it, and returns normally; the
pre-release version `1.2.3-beta.1` is bumped to `1.2.NaN` as well. -/
theorem updateVersionAndTag_malformed_version :
    updateVersionAndTag "patch" malformedWorld =
      some (.returned, { malformedWorld with
        manifest := some "1.2.NaN"
        trace :=
          [Event.writeManifest "1.2.NaN", Event.exec "git status" true,
           Event.exec "git rev-parse 1.2.NaN" false,
           Event.exec "git ls-remote --tags origin 1.2.NaN" true,
           Event.exec "git add ." true, Event.exec "git diff --cached --quiet" false,
           Event.exec "git commit -m \"Release 1.2.NaN\" --no-verify" true,
           Event.exec "git tag -a 1.2.NaN -m \"Release version 1.2.NaN\"" true,
           Event.exec "git push origin 1.2.NaN" true] }) ∧
    newVersion "1.2.3-beta.1" "patch" = some "1.2.NaN" ∧
    versionRegexTest "1.2.NaN" = false :=
  ⟨rfl, by decide, by decide⟩

/-! ## The content refresher -/


theorem descendantsAll_cons (e : FsNode) (rest : List FsNode) :
    descendantsAll (e :: rest) = e :: (e.descendants ++ descendantsAll rest) := by
  rw [descendantsAll]

mutual
theorem countItems_accessible : ∀ (node : FsNode) (s : Stats),
    (∀ e ∈ node.descendants, e.accessible = true) →
    countItems node s =
      { files := s.files + (node.descendants.filter (fun e => !e.isDirectory)).length,
        directories := s.directories + (node.descendants.filter (fun e => e.isDirectory)).length }
  | .file, s, _ => by simp [countItems, FsNode.descendants]
  | .unreadableDir, s, _ => by simp [countItems, FsNode.descendants]
  | .unstatable, s, _ => by simp [countItems, FsNode.descendants]
  | .dir items, s, h => by
    rw [countItems, FsNode.descendants]
    rw [FsNode.descendants] at h
    exact countLoop_accessible items s h
theorem countLoop_accessible : ∀ (items : List FsNode) (s : Stats),
    (∀ e ∈ descendantsAll items, e.accessible = true) →
    countLoop items s =
      { files := s.files + ((descendantsAll items).filter (fun e => !e.isDirectory)).length,
        directories :=
          s.directories + ((descendantsAll items).filter (fun e => e.isDirectory)).length }
  | [], s, _ => by simp [countLoop, descendantsAll]
  | .file :: rest, s, h => by
    rw [descendantsAll_cons] at h ⊢
    rw [countLoop, countLoop_accessible rest _ (fun e he => h e (by simp [he]))]
    simp [FsNode.descendants, FsNode.isDirectory]
    omega
  | .unstatable :: rest, s, h => by
    have := h .unstatable (by rw [descendantsAll_cons]; simp)
    simp [FsNode.accessible] at this
  | .unreadableDir :: rest, s, h => by
    have := h .unreadableDir (by rw [descendantsAll_cons]; simp)
    simp [FsNode.accessible] at this
  | .dir items :: rest, s, h => by
    rw [descendantsAll_cons] at h ⊢
    rw [countLoop, countItems_accessible (.dir items) _ (fun e he => h e (by simp [he])),
      countLoop_accessible rest _ (fun e he => h e (by simp [he]))]
    simp [FsNode.isDirectory, List.filter_append]
    omega
end

/-- C10: when every entry below `root` can be stat-ed and every directory below
it listed, `getContentStats` returns the number of non-directory entries and the
number of directory entries below `root`; so a refresh that starts without a
content directory deletes nothing, runs the export and reports exactly these two
numbers for what the export created. -/
theorem getContentStats_counts (root : FsNode) (w : ContentWorld) (out : String)
    (hacc : ∀ e ∈ root.descendants, e.accessible = true) :
    getContentStats root = { files := fileCount root, directories := directoryCount root } ∧
    (w.content = none → w.exportRun none = (.ok out, some root) →
      updateContentDirectory w = (.returned, { w with
        content := some root
        trace := w.trace ++ [ContentEvent.exec exportCommand true,
          ContentEvent.summary (directoryCount root) (fileCount root)] })) := by
  have h := countItems_accessible root { files := 0, directories := 0 } hacc
  have hs : getContentStats root =
      { files := fileCount root, directories := directoryCount root } := by
    rw [getContentStats, h]
    simp [fileCount, directoryCount]
  refine ⟨hs, ?_⟩
  intro hc hx
  simp [updateContentDirectory, hc, hx, hs]

theorem getContentStats_counts_witness :
    getContentStats sampleExport = { files := 4, directories := 2 } ∧
    updateContentDirectory emptyContentWorld = (.returned, { emptyContentWorld with
      content := some sampleExport
      trace := [ContentEvent.exec exportCommand true, ContentEvent.summary 2 4] }) :=
  have h := getContentStats_counts sampleExport emptyContentWorld "" (by decide)
  ⟨h.1, h.2 rfl rfl⟩

/-! ## Inaccessible entries -/

mutual
theorem countItems_statable : ∀ (node : FsNode) (s : Stats),
    (∀ e ∈ node.descendants, e.statable = true) →
    countItems node s =
      { files := s.files + (node.descendants.filter (fun e => !e.isDirectory)).length,
        directories := s.directories + (node.descendants.filter (fun e => e.isDirectory)).length }
  | .file, s, _ => by simp [countItems, FsNode.descendants]
  | .unreadableDir, s, _ => by simp [countItems, FsNode.descendants]
  | .unstatable, s, _ => by simp [countItems, FsNode.descendants]
  | .dir items, s, h => by
    rw [countItems, FsNode.descendants]
    rw [FsNode.descendants] at h
    exact countLoop_statable items s h
theorem countLoop_statable : ∀ (items : List FsNode) (s : Stats),
    (∀ e ∈ descendantsAll items, e.statable = true) →
    countLoop items s =
      { files := s.files + ((descendantsAll items).filter (fun e => !e.isDirectory)).length,
        directories :=
          s.directories + ((descendantsAll items).filter (fun e => e.isDirectory)).length }
  | [], s, _ => by simp [countLoop, descendantsAll]
  | .file :: rest, s, h => by
    rw [descendantsAll_cons] at h ⊢
    rw [countLoop, countLoop_statable rest _ (fun e he => h e (by simp [he]))]
    simp [FsNode.descendants, FsNode.isDirectory]
    omega
  | .unstatable :: rest, s, h => by
    have := h .unstatable (by rw [descendantsAll_cons]; simp)
    simp [FsNode.statable] at this
  | .unreadableDir :: rest, s, h => by
    rw [descendantsAll_cons] at h ⊢
    rw [countLoop, countItems, countLoop_statable rest _ (fun e he => h e (by simp [he]))]
    simp [FsNode.descendants, FsNode.isDirectory]
    omega
  | .dir items :: rest, s, h => by
    rw [descendantsAll_cons] at h ⊢
    rw [countLoop, countItems_statable (.dir items) _ (fun e he => h e (by simp [he])),
      countLoop_statable rest _ (fun e he => h e (by simp [he]))]
    simp [FsNode.isDirectory, List.filter_append]
    omega
end

/-- The sibling path: a directory that cannot be listed ends only its own walk.
When every entry below `root` can be stat-ed, every file below `root` is counted,
and every directory, the unreadable ones included. -/
theorem getContentStats_skips_unreadable (root : FsNode)
    (h : ∀ e ∈ root.descendants, e.statable = true) :
    getContentStats root = { files := fileCount root, directories := directoryCount root } := by
  rw [getContentStats, countItems_statable root _ h]
  simp [fileCount, directoryCount]

/-- C11 at its failing input: the walk never throws, but an entry whose `statSync`
fails ends the loop over its whole directory, so the siblings listed after it
are not counted.  On a listing of a file, an entry that cannot be stat-ed,
another file and a subdirectory holding one file, `getContentStats` reports one
file and no directory, although three files and one directory are accessible
and outside any inaccessible subtree.  With an unreadable directory in place of
the failing entry all of them are counted. -/
theorem getContentStats_stops_at_failed_stat :
    getContentStats danglingLinkTree = { files := 1, directories := 0 } ∧
    accessibleFileCount danglingLinkTree = 3 ∧
    accessibleDirectoryCount danglingLinkTree = 1 ∧
    (∀ (rest : List FsNode) (s : Stats), countLoop (.unstatable :: rest) s = s) ∧
    getContentStats lockedDirTree = { files := 3, directories := 2 } ∧
    accessibleFileCount lockedDirTree = 3 ∧
    accessibleDirectoryCount lockedDirTree = 1 := by
  refine ⟨by decide, by decide, by decide, ?_, by decide, by decide, by decide⟩
  intro rest s
  rw [countLoop]

end RedPanda
